import Mathlib

/-!
Sum reduction over a bulk-synchronous-parallel runtime.

A verification development for `hama/pipes/Sum/cpu-Sum/cpu-Sum.cc`.

The program is the class `SumBSP` with its three hooks `setup`, `bsp` and
`cleanup`.  The hooks talk to the runtime only through a `BSPContext`; the
runtime itself (`hama/Pipes.hh`) is not part of the sources, so the context
operations, the barrier and the task life cycle are modelled from the
specification of the runtime contract.

Conventions of the embedding:

* a C++ `double` is an IEEE 754 binary64 value (`Double`): signed zeros,
  subnormal and normal numbers, the two infinities and NaN, with addition
  rounded to nearest, ties to even, and overflow to infinity;
* a C++ `int` is an `Int`; the program only halves a peer count and counts up
  to a message count, so no operation leaves the range of `int`;
* `toDouble` (from `hadoop/StringUtils.hh`) is a parameter of the program, a
  total function from texts to numbers;
* writes to `cout` are diagnostics and are left out;
* every context operation appends itself to a ghost `trace`, which lets the
  order of the runtime calls be stated.
-/

namespace HamaPipes

/-- A value of the C++ type `double` (IEEE 754 binary64).  A finite value is a
sign and a magnitude; the magnitude is counted in units of `2^-1074`, the
smallest subnormal, so every finite double is a whole number of units: `1.0`
is `2^1074` units.  The binary64 values are the magnitudes below `2^2098` with
at most 53 significant binary digits, which is what `roundNearestEven` yields.
All NaNs are one value. -/
inductive Double where
  | finite (negative : Bool) (magnitude : Nat)
  | infinite (negative : Bool)
  | nan
  deriving DecidableEq, Repr

namespace Double

/-- The number of binary digits of `n`, with `fuel` halvings allowed. -/
def bitLengthAux : Nat → Nat → Nat
  | 0, _ => 0
  | fuel + 1, n => if n = 0 then 0 else bitLengthAux fuel (n / 2) + 1

/-- The number of binary digits of `n` (0 for 0). -/
def bitLength (n : Nat) : Nat := bitLengthAux n n

/-- Round an exact magnitude (in units of `2^-1074`) to binary64: keep the 53
leading binary digits, round the rest to nearest with ties to even, and give
the infinity when the result reaches `2^1024` (that is `2^2098` units). -/
def roundNearestEven (negative : Bool) (magnitude : Nat) : Double :=
  let shift := bitLength magnitude - 53
  let kept := magnitude >>> shift
  let dropped := magnitude % (1 <<< shift)
  let rounded :=
    if 1 <<< shift < 2 * dropped ∨ (2 * dropped = 1 <<< shift ∧ kept % 2 = 1) then kept + 1
    else kept
  if 1 <<< 2098 ≤ rounded <<< shift then infinite negative
  else finite negative (rounded <<< shift)

/-- The addition of two doubles, `a + b` in C++, in the default rounding mode:
NaN is absorbing, opposite infinities give NaN, the exact sum of two finite
values is rounded, and an exact zero sum is `+0.0` unless both operands are
`-0.0`. -/
def add : Double → Double → Double
  | nan, _ => nan
  | _, nan => nan
  | infinite s, infinite t => if s = t then infinite s else nan
  | infinite s, finite _ _ => infinite s
  | finite _ _, infinite t => infinite t
  | finite s m, finite t n =>
      if s = t then roundNearestEven s (m + n)
      else if m = n then finite false 0
      else if n < m then roundNearestEven s (m - n)
      else roundNearestEven t (n - m)

instance : Add Double := ⟨add⟩

/-- The literal `0.0`. -/
instance : Zero Double := ⟨finite false 0⟩

/-- The double nearest to the whole number `n`. -/
def ofInt (n : Int) : Double :=
  roundNearestEven (decide (n < 0)) (n.natAbs <<< 1074)

/-- Whether the double is a number (neither an infinity nor NaN). -/
def isFinite : Double → Bool
  | finite _ _ => true
  | _ => false

/-- The exact value of a finite double as a rational number; the infinities
and NaN, which have none, are sent to 0. -/
def toRat : Double → ℚ
  | finite negative magnitude =>
      (if negative then -1 else 1) * ((magnitude : ℚ) / ((1 <<< 1074 : Nat) : ℚ))
  | _ => 0

end Double

/-- One input record: a key and a value, both text. -/
abbrev Record := String × String

/-- Reasons for which a peer task aborts.  The first three are the fatal
errors of the runtime contract; `barrierDeadlock` stands for a barrier that
not every peer has reached, where no peer is released. -/
inductive Failure where
  | peerOrdinalOutOfRange
  | unknownDestination
  | mailboxUnderrun
  | barrierDeadlock
  deriving DecidableEq, Repr

/-- The runtime calls a hook can make, as they appear in the ghost trace. -/
inductive Op where
  | getNumPeers
  | getPeerNameAt (ordinal : Int)
  | getPeerName
  | readNext
  | sendMessage (dest : String) (msg : Double)
  | sync
  | getNumCurrentMessages
  | getCurrentMessage
  | write (key : String) (value : Double)
  deriving DecidableEq, Repr

/-- Modelled from the spec: the per-peer facade `BSPContext` of
`hama/Pipes.hh`, which is missing from the sources.  It holds the address
registry (index to address), the peer's own address, the unread rest of the
input partition, the mailbox, the private buffer of outgoing messages, the
records this peer appended to the output sink, the superstep counter, whether
the peer is suspended at the barrier, and the ghost trace. -/
structure BSPContext where
  peerNames : List String
  peerName : String
  input : List Record
  mailbox : List Double
  outgoing : List (String × Double)
  sink : List (String × Double)
  superstep : Nat
  waiting : Bool
  trace : List Op
  deriving DecidableEq, Repr

namespace BSPContext

/-- Append one runtime call to the ghost trace. -/
def log (c : BSPContext) (op : Op) : BSPContext :=
  { c with trace := c.trace ++ [op] }

/-- Modelled from the spec: `getNumPeers()`, the peer count `N` of the
registry (`peerCount() -> N`), a pure lookup. -/
def getNumPeers (c : BSPContext) : Int × BSPContext :=
  ((c.peerNames.length : Int), c.log Op.getNumPeers)

/-- Modelled from the spec: `getPeerName(ordinal)`, the registry lookup
`addressOf(ordinalIndex) -> address`; an out-of-range index is fatal. -/
def getPeerName (c : BSPContext) (ordinal : Int) : Except Failure (String × BSPContext) :=
  if 0 ≤ ordinal then
    match c.peerNames[ordinal.toNat]? with
    | some name => .ok (name, c.log (Op.getPeerNameAt ordinal))
    | none => .error Failure.peerOrdinalOutOfRange
  else
    .error Failure.peerOrdinalOutOfRange

/-- Modelled from the spec: `getPeerName()` without argument, the peer's own
address (`selfAddress() -> address`), a pure lookup. -/
def getOwnPeerName (c : BSPContext) : String × BSPContext :=
  (c.peerName, c.log Op.getPeerName)

/-- Modelled from the spec: `readNext(key, value)`, the pull of the next
record; `none` is the boolean "no more records" result. -/
def readNext (c : BSPContext) : Option Record × BSPContext :=
  match c.input with
  | [] => (none, c.log Op.readNext)
  | r :: rest => (some r, { c.log Op.readNext with input := rest })

/-- Modelled from the spec: `sendMessage(destinationAddress, value)` enqueues
the message in the peer's private outgoing buffer for delivery at the next
barrier; it fails if the destination is not a known peer. -/
def sendMessage (c : BSPContext) (dest : String) (msg : Double) : Except Failure BSPContext :=
  if dest ∈ c.peerNames then
    .ok { c.log (Op.sendMessage dest msg) with outgoing := c.outgoing ++ [(dest, msg)] }
  else
    .error Failure.unknownDestination

/-- Modelled from the spec: `sync()` suspends the calling peer at the barrier.
The release (new mailbox, next superstep) is the coordinator's part. -/
def sync (c : BSPContext) : BSPContext :=
  { c.log Op.sync with waiting := true }

/-- Modelled from the spec: `getNumCurrentMessages()`, the number of messages
currently readable in this peer's mailbox. -/
def getNumCurrentMessages (c : BSPContext) : Int × BSPContext :=
  ((c.mailbox.length : Int), c.log Op.getNumCurrentMessages)

/-- Modelled from the spec: `getCurrentMessage()` pops one message from the
mailbox; popping an empty mailbox is the fatal mailbox underrun. -/
def getCurrentMessage (c : BSPContext) : Except Failure (Double × BSPContext) :=
  match c.mailbox with
  | [] => .error Failure.mailboxUnderrun
  | m :: rest => .ok (m, { c.log Op.getCurrentMessage with mailbox := rest })

/-- Modelled from the spec: `write(key, value)` appends the pair to the
output sink. -/
def write (c : BSPContext) (key : String) (value : Double) : BSPContext :=
  { c.log (Op.write key value) with sink := c.sink ++ [(key, value)] }

/-- Modelled from the spec: the release of one peer by the barrier
coordinator: the delivered partition replaces the mailbox, the outgoing buffer
is cleared and the superstep counter advances by one. -/
def release (c : BSPContext) (delivered : List Double) : BSPContext :=
  { c with mailbox := delivered, outgoing := [], superstep := c.superstep + 1, waiting := false }

/-- Modelled from the spec: a freshly created context of the peer with
address `name` in a task with registry `names` and input partition `part`:
superstep 0, nothing sent, received or written yet. -/
def create (names : List String) (name : String) (part : List Record) : BSPContext :=
  { peerNames := names, peerName := name, input := part, mailbox := [], outgoing := [],
    sink := [], superstep := 0, waiting := false, trace := [] }

end BSPContext

/-- The class `SumBSP`: its only member is the address of the master. -/
structure SumBSP where
  masterTask : String
  deriving DecidableEq, Repr

namespace SumBSP

/-- The constructor `SumBSP(context)`: `masterTask` starts as the empty string. -/
def new : SumBSP := { masterTask := "" }

/-- The hook `setup`: `masterTask = context.getPeerName(context.getNumPeers() / 2)`,
with the truncating division of C++. -/
def setup (self : SumBSP) (context : BSPContext) : Except Failure (SumBSP × BSPContext) :=
  let (numPeers, context) := context.getNumPeers
  match context.getPeerName (Int.tdiv numPeers 2) with
  | .ok (name, context) => .ok ({ self with masterTask := name }, context)
  | .error e => .error e

/-- The loop `while (context.readNext(key, value)) intermediateSum += toDouble(value);`
of `bsp`. -/
def bspLoop (toDouble : String → Double) (context : BSPContext) (intermediateSum : Double) :
    Double × BSPContext :=
  match hread : context.readNext with
  | (some (_key, value), context') =>
      have : context'.input.length < context.input.length := by
        unfold BSPContext.readNext at hread
        split at hread
        · simp at hread
        · rename_i r rest hin
          simp only [Prod.mk.injEq, Option.some.injEq] at hread
          rw [← hread.2, hin]
          simp [BSPContext.log]
      bspLoop toDouble context' (intermediateSum + toDouble value)
  | (none, context') => (intermediateSum, context')
termination_by context.input.length

/-- The hook `bsp`: sum the values of the partition, send the partial sum to
the master, synchronise. -/
def bsp (toDouble : String → Double) (self : SumBSP) (context : BSPContext) :
    Except Failure BSPContext :=
  let (intermediateSum, context) := bspLoop toDouble context 0
  match context.sendMessage self.masterTask intermediateSum with
  | .ok context => .ok context.sync
  | .error e => .error e

/-- The loop `for (int i = 0; i < msgCount; i++) sum += context.getCurrentMessage();`
of `cleanup`, by the number of iterations still to run. -/
def cleanupLoop : Nat → Double → BSPContext → Except Failure (Double × BSPContext)
  | 0, sum, context => .ok (sum, context)
  | n + 1, sum, context =>
      match context.getCurrentMessage with
      | .ok (msg, context) => cleanupLoop n (sum + msg) context
      | .error e => .error e

/-- The hook `cleanup`: on the master, pop `getNumCurrentMessages()` messages,
add them up and write the record `("Sum", sum)`; elsewhere do nothing. -/
def cleanup (self : SumBSP) (context : BSPContext) : Except Failure BSPContext :=
  let (name, context) := context.getOwnPeerName
  if name = self.masterTask then
    let (msgCount, context) := context.getNumCurrentMessages
    match cleanupLoop msgCount.toNat 0 context with
    | .ok (sum, context) => .ok (context.write "Sum" sum)
    | .error e => .error e
  else
    .ok context

end SumBSP

/-- One peer of the task: its `SumBSP` object and its context. -/
structure Peer where
  program : SumBSP
  context : BSPContext
  deriving DecidableEq, Repr

namespace BarrierCoordinator

/-- Modelled from the spec: the outgoing buffers of the given peers, one after
the other, as the coordinator collects them. -/
def collect (peers : List Peer) : List (String × Double) :=
  peers.flatMap fun p => p.context.outgoing

/-- Modelled from the spec: the partition of the collected messages destined
for `address`, in collection order. -/
def partitionFor (collected : List (String × Double)) (address : String) : List Double :=
  (collected.filter fun m => m.1 = address).map Prod.snd

/-- Modelled from the spec: install, for every peer, the partition destined
for it as its new mailbox and release the peer. -/
def exchange (collected : List (String × Double)) (peers : List Peer) : List Peer :=
  peers.map fun p =>
    { p with context := p.context.release (partitionFor collected p.context.peerName) }

/-- Modelled from the spec: senders are taken in address-ascending order. -/
def arrivalOrder (peers : List Peer) : List Peer :=
  peers.insertionSort fun a b => a.context.peerName ≤ b.context.peerName

/-- Modelled from the spec: the barrier of `BarrierCoordinator`.  Once every
peer has called `sync`, all collected messages are partitioned by destination
and installed, and all peers are released; if some peer has not arrived, no
peer is released. -/
def barrier (peers : List Peer) : Except Failure (List Peer) :=
  if peers.all (fun p => p.context.waiting) then
    .ok (exchange (collect (arrivalOrder peers)) peers)
  else
    .error Failure.barrierDeadlock

end BarrierCoordinator

namespace TaskRunner

/-- Run one hook on every peer; the first fatal error aborts the task. -/
def forEachPeer (hook : Peer → Except Failure Peer) : List Peer → Except Failure (List Peer)
  | [] => .ok []
  | p :: ps =>
      match hook p with
      | .ok p' =>
          match forEachPeer hook ps with
          | .ok ps' => .ok (p' :: ps')
          | .error e => .error e
      | .error e => .error e

/-- Modelled from the spec: the launch of a task.  `assignment` lists the
peers in ordinal order, each with its address and its input partition; every
peer gets the same registry and a fresh `SumBSP` object. -/
def launch (assignment : List (String × List Record)) : List Peer :=
  assignment.map fun a =>
    { program := SumBSP.new, context := BSPContext.create (assignment.map Prod.fst) a.1 a.2 }

/-- The setup hook of one peer. -/
def setupPhase (p : Peer) : Except Failure Peer :=
  match p.program.setup p.context with
  | .ok (program, context) => .ok { program := program, context := context }
  | .error e => .error e

/-- The compute hook of one peer, up to and including its `sync()` call. -/
def computePhase (toDouble : String → Double) (p : Peer) : Except Failure Peer :=
  match p.program.bsp toDouble p.context with
  | .ok context => .ok { p with context := context }
  | .error e => .error e

/-- The cleanup hook of one peer. -/
def cleanupPhase (p : Peer) : Except Failure Peer :=
  match p.program.cleanup p.context with
  | .ok context => .ok { p with context := context }
  | .error e => .error e

/-- Modelled from the spec: the life cycle up to the point where every peer
is suspended in `sync()`: setup on every peer, then the compute hook on every
peer. -/
def runToSync (toDouble : String → Double) (assignment : List (String × List Record)) :
    Except Failure (List Peer) :=
  match forEachPeer setupPhase (launch assignment) with
  | .ok peers => forEachPeer (computePhase toDouble) peers
  | .error e => .error e

/-- Modelled from the spec: the life cycle up to and including the first
barrier. -/
def runToBarrier (toDouble : String → Double) (assignment : List (String × List Record)) :
    Except Failure (List Peer) :=
  match runToSync toDouble assignment with
  | .ok peers => BarrierCoordinator.barrier peers
  | .error e => .error e

/-- Modelled from the spec: the whole life cycle `setup → bsp → barrier →
cleanup` of a task. -/
def runTask (toDouble : String → Double) (assignment : List (String × List Record)) :
    Except Failure (List Peer) :=
  match runToBarrier toDouble assignment with
  | .ok peers => forEachPeer cleanupPhase peers
  | .error e => .error e

/-- Modelled from the spec: the content of the output sink, the records
appended by the peers. -/
def outputSink (peers : List Peer) : List (String × Double) :=
  peers.flatMap fun p => p.context.sink

end TaskRunner

/-! ## States used in the proofs -/

/-- The partial sum of a partition, as the loop of `bsp` accumulates it. -/
def SumBSP.partialSum (toDouble : String → Double) (acc : Double) (records : List Record) : Double :=
  records.foldl (fun s r => s + toDouble r.2) acc

/-- The state of the peer with address `a.1` and partition `a.2` when it is
suspended in `sync()`: the master is known, the partition is consumed and the
partial sum is in the outgoing buffer. -/
def TaskRunner.afterCompute (toDouble : String → Double) (names : List String) (master : String)
    (a : String × List Record) : Peer :=
  { program := { masterTask := master },
    context :=
      { peerNames := names, peerName := a.1, input := [], mailbox := [],
        outgoing := [(master, SumBSP.partialSum toDouble 0 a.2)],
        sink := [], superstep := 0, waiting := true,
        trace := [Op.getNumPeers, Op.getPeerNameAt ((names.length / 2 : Nat) : Int)] ++
          List.replicate (a.2.length + 1) Op.readNext ++
          [Op.sendMessage master (SumBSP.partialSum toDouble 0 a.2), Op.sync] } }

/-- The state of the same peer when the barrier has released it, the master
having received `delivered`: the mailbox is installed, the outgoing buffer is
empty and the superstep is 1. -/
def TaskRunner.afterBarrier (toDouble : String → Double) (names : List String) (master : String)
    (delivered : List Double) (a : String × List Record) : Peer :=
  { program := { masterTask := master },
    context :=
      { (afterCompute toDouble names master a).context with
        mailbox := if a.1 = master then delivered else [],
        outgoing := [], superstep := 1, waiting := false } }

/-! ## A task of three peers -/

namespace Scenario

/-- A `toDouble` for the three value texts of the scenario, as `strtod` reads
them. -/
def toDouble (value : String) : Double :=
  if value = "5.0" then Double.ofInt 5
  else if value = "7.0" then Double.ofInt 7
  else if value = "3.0" then Double.ofInt 3
  else 0

/-- Three peers: values "5.0" and "7.0" on peer0, "3.0" on peer1, nothing on peer2. -/
def assignment : List (String × List Record) :=
  [("peer0", [("a", "5.0"), ("b", "7.0")]), ("peer1", [("c", "3.0")]), ("peer2", [])]

/-- The registry of the scenario. -/
def names : List String := ["peer0", "peer1", "peer2"]

/-- The program object of every peer once `setup` has run. -/
def program : SumBSP := { masterTask := "peer1" }

/-- The context of peer0 between `setup` and `bsp`. -/
def peer0Ready : BSPContext :=
  { peerNames := names, peerName := "peer0", input := [("a", "5.0"), ("b", "7.0")],
    mailbox := [], outgoing := [], sink := [], superstep := 0, waiting := false,
    trace := [Op.getNumPeers, Op.getPeerNameAt 1] }

/-- The context of peer1, the master, released by the barrier with the three
partial sums in its mailbox. -/
def peer1Released : BSPContext :=
  { peerNames := names, peerName := "peer1", input := [],
    mailbox := [Double.ofInt 12, Double.ofInt 3, 0], outgoing := [], sink := [],
    superstep := 1, waiting := false, trace := [] }

/-- A context of peer2 at superstep 1 with a message in the mailbox and a record
in the sink, to observe what `cleanup` leaves alone on a peer that is not the
master. -/
def peer2Loaded : BSPContext :=
  { peerNames := names, peerName := "peer2", input := [],
    mailbox := [Double.ofInt 4], outgoing := [], sink := [("Other", Double.ofInt 1)],
    superstep := 1, waiting := false, trace := [] }

end Scenario

/-! ## A task in which additions round -/

namespace Rounding

/-- A `toDouble` for the value texts of this task, as `strtod` reads them: the
binary64 value nearest to the decimal number. -/
def toDouble (value : String) : Double :=
  if value = "1e16" then Double.ofInt (10 ^ 16)
  else if value = "1.0" then Double.ofInt 1
  else if value = "-1e16" then Double.ofInt (-(10 ^ 16))
  else if value = "1e308" then Double.ofInt (10 ^ 308)
  else if value = "-1e308" then Double.ofInt (-(10 ^ 308))
  else 0

/-- One peer with the values "1e16", "1.0" and "-1e16", in this order. -/
def assignment : List (String × List Record) :=
  [("peer0", [("a", "1e16"), ("b", "1.0"), ("c", "-1e16")])]

/-- Three peers whose partial sums are 1e16, 1.0 and -1e16. -/
def spread : List (String × List Record) :=
  [("peer0", [("a", "1e16")]), ("peer1", [("b", "1.0")]), ("peer2", [("c", "-1e16")])]

/-- The context of a master peer with the mailbox 1e16, 1.0, -1e16. -/
def masterFirst : BSPContext :=
  { peerNames := ["peer0"], peerName := "peer0", input := [],
    mailbox := [Double.ofInt (10 ^ 16), Double.ofInt 1, Double.ofInt (-(10 ^ 16))],
    outgoing := [], sink := [], superstep := 1, waiting := false, trace := [] }

/-- The same context with the mailbox in the order 1e16, -1e16, 1.0. -/
def masterSecond : BSPContext :=
  { masterFirst with
    mailbox := [Double.ofInt (10 ^ 16), Double.ofInt (-(10 ^ 16)), Double.ofInt 1] }

/-- The context of a peer, ready for `bsp`, whose partition holds "1e308" twice. -/
def overflowing : BSPContext :=
  { peerNames := ["peer0"], peerName := "peer0", input := [("a", "1e308"), ("b", "1e308")],
    mailbox := [], outgoing := [], sink := [], superstep := 0, waiting := false, trace := [] }

end Rounding

/-! ## The hooks, one at a time -/

namespace SumBSP

theorem readNext_nil (context : BSPContext) (hin : context.input = []) :
    context.readNext = (none, context.log Op.readNext) := by
  simp [BSPContext.readNext, hin]

theorem readNext_cons (context : BSPContext) (r : Record) (rest : List Record)
    (hin : context.input = r :: rest) :
    context.readNext = (some r, { context.log Op.readNext with input := rest }) := by
  simp [BSPContext.readNext, hin]

theorem bspLoop_eq (toDouble : String → Double) (records : List Record) :
    ∀ (context : BSPContext) (acc : Double), context.input = records →
      bspLoop toDouble context acc =
        (partialSum toDouble acc records,
         { context with
           input := [],
           trace := context.trace ++ List.replicate (records.length + 1) Op.readNext }) := by
  induction records with
  | nil =>
      intro context acc hin
      have hr := readNext_nil context hin
      rw [bspLoop]
      split
      · rename_i heq
        rw [hr] at heq
        simp at heq
      · rename_i c' heq
        rw [hr] at heq
        simp only [Prod.mk.injEq, true_and] at heq
        subst heq
        simp [BSPContext.log, partialSum, hin]
  | cons r rest ih =>
      intro context acc hin
      have hr := readNext_cons context r rest hin
      rw [bspLoop]
      split
      · rename_i key value c' heq
        rw [hr] at heq
        simp only [Prod.mk.injEq, Option.some.injEq] at heq
        obtain ⟨hrec, hc⟩ := heq
        subst hc
        subst hrec
        rw [ih _ _ rfl]
        simp [BSPContext.log, partialSum, List.replicate_succ]
      · rename_i c' heq
        rw [hr] at heq
        simp at heq

theorem partialSum_eq_foldl_values (toDouble : String → Double) (records : List Record) :
    ∀ acc : Double, partialSum toDouble acc records =
      ((records.map Prod.snd).map toDouble).foldl (· + ·) acc := by
  induction records with
  | nil => intro acc; rfl
  | cons r rest ih => intro acc; simpa [partialSum] using ih (acc + toDouble r.2)

theorem master_exists (names : List String) (hN : 1 ≤ names.length) :
    ∃ master, names[names.length / 2]? = some master ∧ master ∈ names := by
  have hlt : names.length / 2 < names.length := by omega
  refine ⟨names[names.length / 2], ?_, List.getElem_mem _⟩
  exact List.getElem?_eq_getElem hlt

theorem getPeerName_natCast (context : BSPContext) (i : Nat) :
    context.getPeerName (i : Int) =
      match context.peerNames[i]? with
      | some name => .ok (name, context.log (Op.getPeerNameAt (i : Int)))
      | none => .error Failure.peerOrdinalOutOfRange := by
  simp [BSPContext.getPeerName]

theorem floor_half_eq (n : Nat) : ⌊((n : ℚ) / 2)⌋ = ((n / 2 : Nat) : Int) := by
  have h := Nat.floor_div_eq_div (α := ℚ) n 2
  rw [← h, ← Int.natCast_floor_eq_floor (by positivity)]
  simp

theorem tdiv_two_eq (n : Nat) : Int.tdiv (n : Int) 2 = ((n / 2 : Nat) : Int) := by
  rw [Int.tdiv_eq_ediv (Int.ofNat_nonneg n) (by decide)]
  norm_cast

theorem setup_eq (self : SumBSP) (context : BSPContext) (name : String)
    (hname : context.peerNames[context.peerNames.length / 2]? = some name) :
    self.setup context =
      .ok ({ masterTask := name },
           { context with
             trace := context.trace ++
               [Op.getNumPeers, Op.getPeerNameAt ((context.peerNames.length / 2 : Nat) : Int)] }) := by
  have h0 : (0 : Int) ≤ (context.peerNames.length : Int) / 2 := by omega
  have h2 : ((context.peerNames.length : Int) / 2).toNat = context.peerNames.length / 2 := by
    omega
  simp [setup, BSPContext.getNumPeers, BSPContext.getPeerName, BSPContext.log, tdiv_two_eq,
    h0, h2, hname]

theorem setup_error (self : SumBSP) (context : BSPContext)
    (hname : context.peerNames[context.peerNames.length / 2]? = none) :
    self.setup context = .error Failure.peerOrdinalOutOfRange := by
  have h2 : ((context.peerNames.length : Int) / 2).toNat = context.peerNames.length / 2 := by
    omega
  simp [setup, BSPContext.getNumPeers, BSPContext.getPeerName, BSPContext.log, tdiv_two_eq,
    h2, hname]

theorem bsp_eq (toDouble : String → Double) (self : SumBSP) (context : BSPContext)
    (hm : self.masterTask ∈ context.peerNames) :
    self.bsp toDouble context =
      .ok { context with
            input := [],
            outgoing := context.outgoing ++
              [(self.masterTask, partialSum toDouble 0 context.input)],
            waiting := true,
            trace := context.trace ++ List.replicate (context.input.length + 1) Op.readNext ++
              [Op.sendMessage self.masterTask (partialSum toDouble 0 context.input), Op.sync] } := by
  simp [bsp, bspLoop_eq toDouble context.input context 0 rfl, BSPContext.sendMessage, hm,
    BSPContext.sync, BSPContext.log]

theorem cleanupLoop_eq : ∀ (n : Nat) (acc : Double) (context : BSPContext),
    n ≤ context.mailbox.length →
      cleanupLoop n acc context =
        .ok ((context.mailbox.take n).foldl (· + ·) acc,
             { context with
               mailbox := context.mailbox.drop n,
               trace := context.trace ++ List.replicate n Op.getCurrentMessage }) := by
  intro n
  induction n with
  | zero => intro acc context _; simp [cleanupLoop]
  | succ n ih =>
      intro acc context hn
      cases hmail : context.mailbox with
      | nil => simp [hmail] at hn
      | cons m rest =>
          have hn' : n ≤ rest.length := by simpa [hmail] using hn
          simp [cleanupLoop, BSPContext.getCurrentMessage, hmail, BSPContext.log]
          rw [ih _ _ (by simpa using hn')]
          simp [List.replicate_succ]

theorem cleanupLoop_underrun : ∀ (n : Nat) (acc : Double) (context : BSPContext),
    context.mailbox.length < n →
      cleanupLoop n acc context = .error Failure.mailboxUnderrun := by
  intro n
  induction n with
  | zero => intro acc context hn; simp at hn
  | succ n ih =>
      intro acc context hn
      cases hmail : context.mailbox with
      | nil => simp [cleanupLoop, BSPContext.getCurrentMessage, hmail]
      | cons m rest =>
          have hn' : rest.length < n := by simpa [hmail] using hn
          simp [cleanupLoop, BSPContext.getCurrentMessage, hmail, BSPContext.log]
          rw [ih _ _ (by simpa using hn')]

theorem cleanup_master_eq (self : SumBSP) (context : BSPContext)
    (hmaster : context.peerName = self.masterTask) :
    self.cleanup context =
      .ok { context with
            mailbox := [],
            sink := context.sink ++ [("Sum", context.mailbox.foldl (· + ·) 0)],
            trace := context.trace ++ [Op.getPeerName, Op.getNumCurrentMessages] ++
              List.replicate context.mailbox.length Op.getCurrentMessage ++
              [Op.write "Sum" (context.mailbox.foldl (· + ·) 0)] } := by
  have hloop := cleanupLoop_eq context.mailbox.length 0
    ((context.log Op.getPeerName).log Op.getNumCurrentMessages) (by simp [BSPContext.log])
  simp [cleanup, BSPContext.getOwnPeerName, BSPContext.getNumCurrentMessages, hmaster]
  simp [BSPContext.log] at hloop ⊢
  rw [hloop]
  simp [BSPContext.write, BSPContext.log, hmaster]

theorem cleanup_other_eq (self : SumBSP) (context : BSPContext)
    (hother : context.peerName ≠ self.masterTask) :
    self.cleanup context = .ok (context.log Op.getPeerName) := by
  simp [cleanup, BSPContext.getOwnPeerName, hother]

/-! ## Claims about the hooks -/

/-- C2: on the master (own name equal to `masterTask`) `cleanup` returns with
the mailbox drained and exactly one record appended to the output sink, with
key "Sum" and value the double sum, from 0.0 on, of the messages that were in
the mailbox, added one by one in the order they are popped after the count was
read; with an empty mailbox the record is `("Sum", 0.0)`. -/
theorem cleanup_master_writes_sum (self : SumBSP) (context : BSPContext)
    (hmaster : context.peerName = self.masterTask) :
    self.cleanup context =
        .ok { context with
              mailbox := [],
              sink := context.sink ++ [("Sum", context.mailbox.foldl (· + ·) 0)],
              trace := context.trace ++ [Op.getPeerName, Op.getNumCurrentMessages] ++
                List.replicate context.mailbox.length Op.getCurrentMessage ++
                [Op.write "Sum" (context.mailbox.foldl (· + ·) 0)] } ∧
      (context.mailbox = [] →
        ∃ c, self.cleanup context = .ok c ∧ c.sink = context.sink ++ [("Sum", 0)]) := by
  refine ⟨cleanup_master_eq self context hmaster, ?_⟩
  intro hempty
  refine ⟨_, cleanup_master_eq self context hmaster, ?_⟩
  simp [hempty]

/-- On the master of the three-peer task, with mailbox 12, 3, 0, the record is
("Sum", 15); with mailbox 1e16, 1.0, -1e16 it is ("Sum", 0.0), and with the same
messages in the order 1e16, -1e16, 1.0 it is ("Sum", 1.0). -/
theorem cleanup_master_writes_sum_scenario :
    Scenario.peer1Released.peerName = Scenario.program.masterTask ∧
      (∃ c, Scenario.program.cleanup Scenario.peer1Released = .ok c ∧
        c.sink = [("Sum", Double.ofInt 15)] ∧ c.mailbox = [] ∧
        c.trace = [Op.getPeerName, Op.getNumCurrentMessages, Op.getCurrentMessage,
          Op.getCurrentMessage, Op.getCurrentMessage, Op.write "Sum" (Double.ofInt 15)]) ∧
      (∃ c, SumBSP.cleanup ⟨"peer0"⟩ Rounding.masterFirst = .ok c ∧ c.sink = [("Sum", 0)]) ∧
      (∃ c, SumBSP.cleanup ⟨"peer0"⟩ Rounding.masterSecond = .ok c ∧
        c.sink = [("Sum", Double.ofInt 1)]) := by
  have h15 : Scenario.peer1Released.mailbox.foldl (· + ·) 0 = Double.ofInt 15 := by decide!
  have h0 : Rounding.masterFirst.mailbox.foldl (· + ·) 0 = 0 := by decide!
  have h1 : Rounding.masterSecond.mailbox.foldl (· + ·) 0 = Double.ofInt 1 := by decide!
  refine ⟨rfl,
    ⟨_, (cleanup_master_writes_sum Scenario.program Scenario.peer1Released rfl).1, ?_, rfl, ?_⟩,
    ⟨_, (cleanup_master_writes_sum ⟨"peer0"⟩ Rounding.masterFirst rfl).1, ?_⟩,
    ⟨_, (cleanup_master_writes_sum ⟨"peer0"⟩ Rounding.masterSecond rfl).1, ?_⟩⟩
  · simp only [h15]
    rfl
  · simp only [h15]
    rfl
  · simp only [h0]
    rfl
  · simp only [h1]
    rfl

/-- C3: on a peer whose own name differs from `masterTask`, `cleanup` only
looks up the own name: it writes nothing and pops nothing, so the output sink
and the mailbox are unchanged. -/
theorem cleanup_other_is_silent (self : SumBSP) (context : BSPContext)
    (hother : context.peerName ≠ self.masterTask) :
    ∃ c, self.cleanup context = .ok c ∧
      c.sink = context.sink ∧ c.mailbox = context.mailbox ∧
      c.trace = context.trace ++ [Op.getPeerName] ∧
      c = { context with trace := context.trace ++ [Op.getPeerName] } := by
  refine ⟨_, cleanup_other_eq self context hother, ?_⟩
  simp [BSPContext.log]

/-- On peer2 of the three-peer task `cleanup` leaves sink and mailbox as they are. -/
theorem cleanup_other_is_silent_scenario :
    Scenario.peer2Loaded.peerName ≠ Scenario.program.masterTask ∧
      ∃ c, Scenario.program.cleanup Scenario.peer2Loaded = .ok c ∧
        c.sink = [("Other", Double.ofInt 1)] ∧ c.mailbox = [Double.ofInt 4] ∧
        c.trace = [Op.getPeerName] := by
  have hother : Scenario.peer2Loaded.peerName ≠ Scenario.program.masterTask := by
    simp [Scenario.peer2Loaded, Scenario.program]
  obtain ⟨c, hc, hsink, hmail, htrace, _⟩ :=
    cleanup_other_is_silent Scenario.program Scenario.peer2Loaded hother
  exact ⟨hother, c, hc, hsink, hmail, htrace⟩

/-- C4: `bsp`, run with a `masterTask` that is a known peer address, reads the
whole partition and appends exactly one message to the outgoing buffer: its
destination is `masterTask` and its payload is the double sum, from 0.0 on and
in read order, of `toDouble(value)` over the records; the payload is a function
of the values alone, and for an empty partition it is 0.0. -/
theorem bsp_sends_one_partial_sum (toDouble : String → Double) (self : SumBSP)
    (context : BSPContext) (hm : self.masterTask ∈ context.peerNames) :
    ∃ payload : Double,
      payload = context.input.foldl (fun s r => s + toDouble r.2) 0 ∧
      payload = ((context.input.map Prod.snd).map toDouble).foldl (· + ·) 0 ∧
      (context.input = [] → payload = 0) ∧
      self.bsp toDouble context =
        .ok { context with
              input := [],
              outgoing := context.outgoing ++ [(self.masterTask, payload)],
              waiting := true,
              trace := context.trace ++
                List.replicate (context.input.length + 1) Op.readNext ++
                [Op.sendMessage self.masterTask payload, Op.sync] } := by
  refine ⟨partialSum toDouble 0 context.input, rfl, partialSum_eq_foldl_values _ _ _, ?_,
    bsp_eq toDouble self context hm⟩
  intro hempty
  simp [hempty, partialSum]

/-- On peer0 of the three-peer task, after `setup`: one message, 12 to peer1.
On a peer with the values 1e308 and 1e308: one message, the positive infinity. -/
theorem bsp_sends_one_partial_sum_scenario :
    SumBSP.new.setup (BSPContext.create Scenario.names "peer0" [("a", "5.0"), ("b", "7.0")]) =
        .ok (Scenario.program, Scenario.peer0Ready) ∧
      Scenario.program.masterTask ∈ Scenario.peer0Ready.peerNames ∧
      (∃ c, Scenario.program.bsp Scenario.toDouble Scenario.peer0Ready = .ok c ∧
        c.outgoing = [("peer1", Double.ofInt 12)] ∧
        c.trace = [Op.getNumPeers, Op.getPeerNameAt 1, Op.readNext, Op.readNext, Op.readNext,
          Op.sendMessage "peer1" (Double.ofInt 12), Op.sync]) ∧
      (∃ c, SumBSP.bsp Rounding.toDouble ⟨"peer0"⟩ Rounding.overflowing = .ok c ∧
        c.outgoing = [("peer0", Double.infinite false)]) := by
  have hm : Scenario.program.masterTask ∈ Scenario.peer0Ready.peerNames := by
    simp [Scenario.program, Scenario.peer0Ready, Scenario.names]
  have hm' : (⟨"peer0"⟩ : SumBSP).masterTask ∈ Rounding.overflowing.peerNames := by
    simp [Rounding.overflowing]
  obtain ⟨payload, hpayload, _, _, hbsp⟩ :=
    bsp_sends_one_partial_sum Scenario.toDouble Scenario.program Scenario.peer0Ready hm
  obtain ⟨payload', hpayload', _, _, hbsp'⟩ :=
    bsp_sends_one_partial_sum Rounding.toDouble ⟨"peer0"⟩ Rounding.overflowing hm'
  have h12 : payload = Double.ofInt 12 := by
    rw [hpayload]
    decide!
  have hinf : payload' = Double.infinite false := by
    rw [hpayload']
    decide!
  rw [h12] at hbsp
  rw [hinf] at hbsp'
  exact ⟨rfl, hm, ⟨_, hbsp, rfl, rfl⟩, ⟨_, hbsp', rfl⟩⟩

/-- C5: `setup` elects the peer of index `floor(N/2)`: the truncating division
`getNumPeers() / 2` is `floor(N/2)` for every `N ≥ 0`, and `setup` succeeds
exactly when the registry has an address at that index, which then is
`masterTask`, the result of `getPeerName(floor(N/2))`. -/
theorem setup_elects_floor_half (self : SumBSP) (context : BSPContext) :
    Int.tdiv context.getNumPeers.1 2 = ⌊((context.peerNames.length : ℚ) / 2)⌋ ∧
      Int.tdiv context.getNumPeers.1 2 = ((context.peerNames.length / 2 : Nat) : Int) ∧
      (self.setup context).map (fun r => r.1.masterTask) =
        (context.getPeerName ((context.peerNames.length / 2 : Nat) : Int)).map Prod.fst ∧
      (match self.setup context with
        | .ok r => some r.1.masterTask
        | .error _ => none) = context.peerNames[context.peerNames.length / 2]? := by
  have hdiv := tdiv_two_eq context.peerNames.length
  refine ⟨?_, hdiv, ?_, ?_⟩
  · simp only [BSPContext.getNumPeers, hdiv, floor_half_eq]
  · rw [getPeerName_natCast]
    cases hname : context.peerNames[context.peerNames.length / 2]? with
    | none =>
        rw [setup_error self context hname]
        rfl
    | some name =>
        rw [setup_eq self context name hname]
        rfl
  · cases hname : context.peerNames[context.peerNames.length / 2]? with
    | none => rw [setup_error self context hname]
    | some name => rw [setup_eq self context name hname]

/-- With three peers the elected index is 1 and the master is peer1. -/
theorem setup_elects_floor_half_scenario :
    Int.tdiv (BSPContext.create Scenario.names "peer2" []).getNumPeers.1 2 = 1 ∧
      (match SumBSP.new.setup (BSPContext.create Scenario.names "peer2" []) with
        | .ok r => some r.1.masterTask
        | .error _ => none) = some "peer1" := by
  obtain ⟨_, hdiv, _, hmaster⟩ :=
    setup_elects_floor_half SumBSP.new (BSPContext.create Scenario.names "peer2" [])
  exact ⟨hdiv, hmaster⟩

/-- C6: master election is deterministic: `setup` run on two peers that share
the address registry (whatever their own names, partitions, mailboxes and
earlier `masterTask`) yields the same `masterTask`, or the same fatal error. -/
theorem master_election_deterministic (self₁ self₂ : SumBSP) (context₁ context₂ : BSPContext)
    (hregistry : context₁.peerNames = context₂.peerNames) :
    (self₁.setup context₁).map (fun r => r.1.masterTask) =
      (self₂.setup context₂).map (fun r => r.1.masterTask) := by
  cases hname : context₁.peerNames[context₁.peerNames.length / 2]? with
  | none =>
      rw [setup_error self₁ context₁ hname, setup_error self₂ context₂ (hregistry ▸ hname)]
  | some name =>
      rw [setup_eq self₁ context₁ name hname, setup_eq self₂ context₂ name (hregistry ▸ hname)]
      rfl

/-- Two different peers of the three-peer task elect the same master. -/
theorem master_election_deterministic_scenario :
    Scenario.peer0Ready.peerNames = Scenario.peer2Loaded.peerNames ∧
      (SumBSP.new.setup Scenario.peer0Ready).map (fun r => r.1.masterTask) =
        (Scenario.program.setup Scenario.peer2Loaded).map (fun r => r.1.masterTask) :=
  ⟨rfl, master_election_deterministic SumBSP.new Scenario.program Scenario.peer0Ready
    Scenario.peer2Loaded rfl⟩

/-- C8: `cleanup` never underruns the mailbox: for every context it returns
without a fatal error, and on the master it pops exactly as many messages as
`getNumCurrentMessages()` reported before the loop, which is all of them, so
the mailbox is empty afterwards; one more pop would be the fatal underrun. -/
theorem cleanup_never_underruns (self : SumBSP) (context : BSPContext) :
    ∃ c, self.cleanup context = .ok c ∧
      (context.peerName = self.masterTask →
        c.mailbox = [] ∧
        context.getNumCurrentMessages.1.toNat = context.mailbox.length ∧
        c.trace = context.trace ++ [Op.getPeerName, Op.getNumCurrentMessages] ++
          List.replicate context.getNumCurrentMessages.1.toNat Op.getCurrentMessage ++
          [Op.write "Sum" (context.mailbox.foldl (· + ·) 0)] ∧
        c.trace.count Op.getCurrentMessage =
          context.trace.count Op.getCurrentMessage + context.mailbox.length ∧
        c.getCurrentMessage = .error Failure.mailboxUnderrun) := by
  by_cases hmaster : context.peerName = self.masterTask
  · refine ⟨_, cleanup_master_eq self context hmaster, fun _ => ?_⟩
    simp [BSPContext.getNumCurrentMessages, BSPContext.getCurrentMessage, List.count_replicate]
  · exact ⟨_, cleanup_other_eq self context hmaster, fun h => absurd h hmaster⟩

/-- On the master of the three-peer task: three pops, then the mailbox is empty. -/
theorem cleanup_never_underruns_scenario :
    ∃ c, Scenario.program.cleanup Scenario.peer1Released = .ok c ∧
      c.mailbox = [] ∧ c.trace.count Op.getCurrentMessage = 3 ∧
      c.getCurrentMessage = .error Failure.mailboxUnderrun := by
  obtain ⟨c, hc, h⟩ := cleanup_never_underruns Scenario.program Scenario.peer1Released
  obtain ⟨hmail, _, _, hcount, hnext⟩ := h rfl
  exact ⟨c, hc, hmail, hcount, hnext⟩

/-- C9: the ordinal that `setup` passes to `getPeerName` is in range whenever
there is at least one peer: for `N ≥ 1`, `0 ≤ N / 2 < N`, the lookup succeeds
and `setup` returns; for `N = 0` the ordinal is 0, which is out of range, and
`setup` aborts with the out-of-range error. -/
theorem setup_ordinal_in_range (self : SumBSP) (context : BSPContext) :
    (1 ≤ context.peerNames.length →
      0 ≤ Int.tdiv context.getNumPeers.1 2 ∧
      Int.tdiv context.getNumPeers.1 2 < context.getNumPeers.1 ∧
      (∃ name c, context.getNumPeers.2.getPeerName (Int.tdiv context.getNumPeers.1 2) =
        .ok (name, c)) ∧
      ∃ r, self.setup context = .ok r) ∧
    (context.peerNames.length = 0 →
      Int.tdiv context.getNumPeers.1 2 = 0 ∧
      context.getNumPeers.2.getPeerName 0 = .error Failure.peerOrdinalOutOfRange ∧
      self.setup context = .error Failure.peerOrdinalOutOfRange) := by
  have hdiv := tdiv_two_eq context.peerNames.length
  constructor
  · intro hN
    obtain ⟨master, hmaster, _⟩ := master_exists context.peerNames hN
    have hsetup := setup_eq self context master hmaster
    refine ⟨?_, ?_, ?_, _, hsetup⟩
    · simp only [BSPContext.getNumPeers, hdiv]; omega
    · simp only [BSPContext.getNumPeers, hdiv]; omega
    · simp only [BSPContext.getNumPeers, hdiv, getPeerName_natCast]
      exact ⟨master, _, by rw [show (context.log Op.getNumPeers).peerNames = context.peerNames
        from rfl, hmaster]⟩
  · intro hN
    have hnil : context.peerNames = [] := List.length_eq_zero.mp hN
    refine ⟨?_, ?_, ?_⟩
    · simp [BSPContext.getNumPeers, hnil]
    · simp [BSPContext.getNumPeers, BSPContext.getPeerName, BSPContext.log, hnil]
    · exact setup_error self context (by simp [hnil])

/-- With three peers `setup` returns; with an empty registry it aborts. -/
theorem setup_ordinal_in_range_scenario :
    1 ≤ Scenario.peer0Ready.peerNames.length ∧
      (BSPContext.create [] "peer0" []).peerNames.length = 0 ∧
      (∃ r, SumBSP.new.setup Scenario.peer0Ready = .ok r) ∧
      SumBSP.new.setup (BSPContext.create [] "peer0" []) =
        .error Failure.peerOrdinalOutOfRange :=
  ⟨by decide, rfl,
    ((setup_ordinal_in_range SumBSP.new Scenario.peer0Ready).1 (by decide)).2.2.2,
    ((setup_ordinal_in_range SumBSP.new (BSPContext.create [] "peer0" [])).2 rfl).2.2⟩

/-- C10: superstep discipline of one peer, from a fresh context at superstep 0
through `setup`, `bsp`, the release by the barrier and `cleanup`.  The trace of
`bsp` is the reads of the partition, then its single `sendMessage`, then its
single `sync` as last operation; `bsp` leaves the mailbox untouched and makes no
mailbox call; the superstep is 0 until the barrier releases the peer and 1
afterwards; every `getNumCurrentMessages` and `getCurrentMessage` call comes
after the `sync`, and no second `sync` follows. -/
theorem superstep_discipline (toDouble : String → Double) (names : List String) (name : String)
    (part : List Record) (delivered : List Double) (hN : 1 ≤ names.length) :
    ∃ (program : SumBSP) (c₁ c₂ c₄ : BSPContext) (afterSync : List Op),
      SumBSP.new.setup (BSPContext.create names name part) = .ok (program, c₁) ∧
      program.bsp toDouble c₁ = .ok c₂ ∧
      program.cleanup (c₂.release delivered) = .ok c₄ ∧
      c₁.trace = [Op.getNumPeers, Op.getPeerNameAt ((names.length / 2 : Nat) : Int)] ∧
      c₂.trace = c₁.trace ++ List.replicate (part.length + 1) Op.readNext ++
        [Op.sendMessage program.masterTask (part.foldl (fun s r => s + toDouble r.2) 0),
         Op.sync] ∧
      c₄.trace = c₂.trace ++ afterSync ∧
      afterSync =
        (if name = program.masterTask then
          [Op.getPeerName, Op.getNumCurrentMessages] ++
            List.replicate delivered.length Op.getCurrentMessage ++
            [Op.write "Sum" (delivered.foldl (· + ·) 0)]
        else [Op.getPeerName]) ∧
      Op.sync ∉ afterSync ∧
      c₂.trace.count Op.sync = 1 ∧
      c₄.trace.count Op.sync = 1 ∧
      Op.getNumCurrentMessages ∉ c₂.trace ∧
      Op.getCurrentMessage ∉ c₂.trace ∧
      c₂.mailbox = [] ∧
      (BSPContext.create names name part).superstep = 0 ∧
      c₂.superstep = 0 ∧
      c₂.waiting = true ∧
      (c₂.release delivered).superstep = 1 ∧
      c₄.superstep = 1 := by
  obtain ⟨master, hmaster, hmem⟩ := master_exists names hN
  have hsetup : SumBSP.new.setup (BSPContext.create names name part) =
      .ok (⟨master⟩,
      { peerNames := names, peerName := name, input := part, mailbox := [], outgoing := [],
        sink := [], superstep := 0, waiting := false,
        trace := [Op.getNumPeers, Op.getPeerNameAt ((names.length / 2 : Nat) : Int)] }) := by
    rw [setup_eq _ _ master hmaster]
    rfl
  have hbsp : bsp toDouble ⟨master⟩
      { peerNames := names, peerName := name, input := part, mailbox := [], outgoing := [],
        sink := [], superstep := 0, waiting := false,
        trace := [Op.getNumPeers, Op.getPeerNameAt ((names.length / 2 : Nat) : Int)] } =
      .ok
      { peerNames := names, peerName := name, input := [], mailbox := [],
        outgoing := [(master, partialSum toDouble 0 part)],
        sink := [], superstep := 0, waiting := true,
        trace := [Op.getNumPeers, Op.getPeerNameAt ((names.length / 2 : Nat) : Int)] ++
          List.replicate (part.length + 1) Op.readNext ++
          [Op.sendMessage master (partialSum toDouble 0 part), Op.sync] } := by
    rw [bsp_eq toDouble _ _ hmem]
    rfl
  by_cases hname : name = master
  · have hclean := cleanup_master_eq ⟨master⟩
      (BSPContext.release
      { peerNames := names, peerName := name, input := [], mailbox := [],
        outgoing := [(master, partialSum toDouble 0 part)],
        sink := [], superstep := 0, waiting := true,
        trace := [Op.getNumPeers, Op.getPeerNameAt ((names.length / 2 : Nat) : Int)] ++
          List.replicate (part.length + 1) Op.readNext ++
          [Op.sendMessage master (partialSum toDouble 0 part), Op.sync] } delivered) hname
    refine ⟨_, _, _, _,
      [Op.getPeerName, Op.getNumCurrentMessages] ++
        List.replicate delivered.length Op.getCurrentMessage ++
        [Op.write "Sum" (delivered.foldl (· + ·) 0)],
      hsetup, hbsp, hclean, rfl, rfl, ?_, ?_, ?_⟩
    · simp [BSPContext.release]
    · simp [hname]
    · simp [BSPContext.release, BSPContext.create, List.count_replicate, List.count_cons]
  · have hclean := cleanup_other_eq ⟨master⟩
      (BSPContext.release
      { peerNames := names, peerName := name, input := [], mailbox := [],
        outgoing := [(master, partialSum toDouble 0 part)],
        sink := [], superstep := 0, waiting := true,
        trace := [Op.getNumPeers, Op.getPeerNameAt ((names.length / 2 : Nat) : Int)] ++
          List.replicate (part.length + 1) Op.readNext ++
          [Op.sendMessage master (partialSum toDouble 0 part), Op.sync] } delivered) hname
    refine ⟨_, _, _, _, [Op.getPeerName], hsetup, hbsp, hclean, rfl, rfl, ?_, ?_⟩
    · simp [BSPContext.release, BSPContext.log]
    · simp [hname, BSPContext.release, BSPContext.log, BSPContext.create, List.count_replicate,
        List.count_cons]

/-- The life cycle of peer1 in the three-peer task: superstep 0 before, 1 after the barrier. -/
theorem superstep_discipline_scenario :
    1 ≤ Scenario.names.length ∧
      ∃ (program : SumBSP) (c₁ c₂ c₄ : BSPContext),
        SumBSP.new.setup (BSPContext.create Scenario.names "peer1" [("c", "3.0")]) =
          .ok (program, c₁) ∧
        program.bsp Scenario.toDouble c₁ = .ok c₂ ∧
        program.cleanup (c₂.release [Double.ofInt 12, Double.ofInt 3, 0]) = .ok c₄ ∧
        c₂.superstep = 0 ∧ c₄.superstep = 1 ∧
        c₄.trace.count Op.sync = 1 := by
  obtain ⟨program, c₁, c₂, c₄, _, h₁, h₂, h₄, _, _, _, _, _, _, hcount, _, _, _, _, hs₂, _, _, hs₄⟩ :=
    superstep_discipline Scenario.toDouble Scenario.names "peer1" [("c", "3.0")]
      [Double.ofInt 12, Double.ofInt 3, 0]
      (by decide)
  exact ⟨by decide, program, c₁, c₂, c₄, h₁, h₂, h₄, hs₂, hs₄, hcount⟩

end SumBSP

/-! ## The task as a whole -/

namespace TaskRunner

open BarrierCoordinator

theorem forEachPeer_eq_map (hook : Peer → Except Failure Peer) (g : Peer → Peer) :
    ∀ peers : List Peer, (∀ p ∈ peers, hook p = .ok (g p)) →
      forEachPeer hook peers = .ok (peers.map g) := by
  intro peers
  induction peers with
  | nil => intro _; rfl
  | cons p ps ih =>
      intro h
      have hp := h p (List.mem_cons_self p ps)
      have hps := ih fun q hq => h q (List.mem_cons_of_mem p hq)
      simp [forEachPeer, hp, hps]

theorem runToSync_eq (toDouble : String → Double) (assignment : List (String × List Record))
    (master : String)
    (hmaster : (assignment.map Prod.fst)[(assignment.map Prod.fst).length / 2]? = some master)
    (hmem : master ∈ assignment.map Prod.fst) :
    runToSync toDouble assignment =
      .ok (assignment.map (afterCompute toDouble (assignment.map Prod.fst) master)) := by
  have hsetup : forEachPeer setupPhase (launch assignment) =
      .ok ((launch assignment).map fun p =>
        { program := { masterTask := master },
          context := { p.context with
            trace := p.context.trace ++
              [Op.getNumPeers, Op.getPeerNameAt ((p.context.peerNames.length / 2 : Nat) : Int)] } }) := by
    apply forEachPeer_eq_map
    intro p hp
    simp only [launch, List.mem_map] at hp
    obtain ⟨a, _, rfl⟩ := hp
    simp only [setupPhase]
    rw [SumBSP.setup_eq _ _ master (by simpa [BSPContext.create] using hmaster)]
  simp only [runToSync, hsetup]
  rw [forEachPeer_eq_map (computePhase toDouble) (fun p =>
      { p with context := { p.context with
            input := [],
            outgoing := p.context.outgoing ++
              [(p.program.masterTask, SumBSP.partialSum toDouble 0 p.context.input)],
            waiting := true,
            trace := p.context.trace ++ List.replicate (p.context.input.length + 1) Op.readNext ++
              [Op.sendMessage p.program.masterTask
                (SumBSP.partialSum toDouble 0 p.context.input), Op.sync] } })]
  · simp [launch, afterCompute, BSPContext.create]
  · intro p hp
    simp only [launch, List.map_map, List.mem_map] at hp
    obtain ⟨a, _, rfl⟩ := hp
    simp only [computePhase]
    rw [SumBSP.bsp_eq toDouble _ _ (by simpa [BSPContext.create] using hmem)]

theorem collect_afterCompute (toDouble : String → Double) (names : List String) (master : String)
    (assignment : List (String × List Record)) :
    collect (assignment.map (afterCompute toDouble names master)) =
      assignment.map fun a => (master, SumBSP.partialSum toDouble 0 a.2) := by
  induction assignment with
  | nil => rfl
  | cons a rest ih =>
      simp only [collect, List.map_cons, List.flatMap_cons] at ih ⊢
      rw [ih]
      simp [afterCompute]

theorem partitionFor_of_all_dest (collected : List (String × Double)) (master name : String)
    (hall : ∀ m ∈ collected, m.1 = master) :
    partitionFor collected name = if name = master then collected.map Prod.snd else [] := by
  unfold partitionFor
  split
  · rename_i h
    subst h
    rw [List.filter_eq_self.mpr]
    intro m hm
    simpa using hall m hm
  · rename_i h
    rw [List.filter_eq_nil_iff.mpr]
    · rfl
    · intro m hm
      have := hall m hm
      simp [this, Ne.symm h]

theorem exchange_afterCompute (toDouble : String → Double) (names : List String) (master : String)
    (assignment : List (String × List Record)) (collected : List (String × Double))
    (hperm : collected.Perm (collect (assignment.map (afterCompute toDouble names master)))) :
    exchange collected (assignment.map (afterCompute toDouble names master)) =
      assignment.map (afterBarrier toDouble names master (collected.map Prod.snd)) := by
  have hall : ∀ m ∈ collected, m.1 = master := by
    intro m hm
    have hm' := hperm.subset hm
    rw [collect_afterCompute] at hm'
    simp only [List.mem_map] at hm'
    obtain ⟨a, _, rfl⟩ := hm'
    rfl
  simp only [exchange, List.map_map]
  apply List.map_congr_left
  intro a _
  simp [afterBarrier, afterCompute, BSPContext.release, partitionFor_of_all_dest _ _ _ hall]

theorem barrier_afterCompute (toDouble : String → Double) (names : List String) (master : String)
    (assignment : List (String × List Record)) :
    barrier (assignment.map (afterCompute toDouble names master)) =
      .ok (exchange (collect (arrivalOrder (assignment.map (afterCompute toDouble names master))))
        (assignment.map (afterCompute toDouble names master))) := by
  have hall : (assignment.map (afterCompute toDouble names master)).all
      (fun p => p.context.waiting) = true := by
    rw [List.all_eq_true]
    intro p hp
    simp only [List.mem_map] at hp
    obtain ⟨a, _, rfl⟩ := hp
    rfl
  simp [barrier, hall]

theorem collect_arrivalOrder_perm (peers : List Peer) :
    (collect (arrivalOrder peers)).Perm (collect peers) := by
  unfold collect arrivalOrder
  exact (List.perm_insertionSort _ peers).flatMap_right _

theorem flatMap_only_master {β : Type} (x : β) (master : String) :
    ∀ assignment : List (String × List Record),
      (assignment.map Prod.fst).Nodup → master ∈ assignment.map Prod.fst →
        (assignment.flatMap fun a => if a.1 = master then [x] else []) = [x] := by
  intro assignment
  induction assignment with
  | nil => intro _ hmem; simp at hmem
  | cons a rest ih =>
      intro hnodup hmem
      simp only [List.map_cons, List.nodup_cons] at hnodup
      by_cases ha : a.1 = master
      · have hrest : (rest.flatMap fun b => if b.1 = master then [x] else []) = [] := by
          rw [List.flatMap_eq_nil_iff]
          intro b hb
          have hne : b.1 ≠ master := by
            intro hb'
            apply hnodup.1
            rw [ha, ← hb']
            exact List.mem_map_of_mem Prod.fst hb
          simp [hne]
        simp [List.flatMap_cons, ha, hrest]
      · have hmem' : master ∈ rest.map Prod.fst := by
          simp only [List.map_cons, List.mem_cons] at hmem
          rcases hmem with h | h
          · exact absurd h.symm ha
          · exact h
        simp [List.flatMap_cons, ha, ih hnodup.2 hmem']

theorem cleanupPhase_afterBarrier (toDouble : String → Double) (names : List String)
    (master : String) (delivered : List Double) (a : String × List Record) :
    ∃ p, cleanupPhase (afterBarrier toDouble names master delivered a) = .ok p ∧
      p.context.sink =
        if a.1 = master then [("Sum", delivered.foldl (· + ·) 0)] else [] := by
  by_cases ha : a.1 = master
  · have hc := SumBSP.cleanup_master_eq
      (afterBarrier toDouble names master delivered a).program
      (afterBarrier toDouble names master delivered a).context
      (by simp [afterBarrier, afterCompute, ha])
    refine ⟨_, by simp only [cleanupPhase, hc]; rfl, ?_⟩
    simp [ha, afterBarrier, afterCompute]
  · have hc := SumBSP.cleanup_other_eq
      (afterBarrier toDouble names master delivered a).program
      (afterBarrier toDouble names master delivered a).context
      (by simp [afterBarrier, afterCompute, ha])
    refine ⟨_, by simp only [cleanupPhase, hc]; rfl, ?_⟩
    simp [ha, afterBarrier, afterCompute, BSPContext.log]

theorem cleanup_afterBarrier (toDouble : String → Double) (names : List String) (master : String)
    (delivered : List Double) (assignment : List (String × List Record)) :
    ∃ peers, forEachPeer cleanupPhase
        (assignment.map (afterBarrier toDouble names master delivered)) = .ok peers ∧
      outputSink peers =
        assignment.flatMap fun a =>
          if a.1 = master then [("Sum", delivered.foldl (· + ·) 0)] else [] := by
  induction assignment with
  | nil => exact ⟨[], rfl, rfl⟩
  | cons a rest ih =>
      obtain ⟨peers, hrun, hsink⟩ := ih
      obtain ⟨p, hp, hs⟩ := cleanupPhase_afterBarrier toDouble names master delivered a
      refine ⟨p :: peers, ?_, ?_⟩
      · simp only [List.map_cons, forEachPeer, hp, hrun]
      · simp only [outputSink] at hsink
        simp only [outputSink, List.flatMap_cons, hsink, hs]

theorem mem_afterBarrier (toDouble : String → Double) (names : List String) (master : String)
    (delivered : List Double) (assignment : List (String × List Record)) (p : Peer)
    (hp : p ∈ assignment.map (afterBarrier toDouble names master delivered)) :
    p.program.masterTask = master ∧
      p.context.mailbox = if p.context.peerName = master then delivered else [] := by
  simp only [List.mem_map] at hp
  obtain ⟨a, _, rfl⟩ := hp
  exact ⟨rfl, rfl⟩

theorem names_afterBarrier (toDouble : String → Double) (names : List String) (master : String)
    (delivered : List Double) (assignment : List (String × List Record)) :
    (assignment.map (afterBarrier toDouble names master delivered)).map
      (fun p => p.context.peerName) = assignment.map Prod.fst := by
  rw [List.map_map]
  apply List.map_congr_left
  intro a _
  rfl

theorem arrivalOrder_afterCompute (toDouble : String → Double) (names : List String)
    (master : String) (assignment : List (String × List Record)) :
    arrivalOrder (assignment.map (afterCompute toDouble names master)) =
      (assignment.insertionSort fun a b => a.1 ≤ b.1).map
        (afterCompute toDouble names master) := by
  unfold arrivalOrder
  exact (List.map_insertionSort (fun a b : String × List Record => a.1 ≤ b.1)
    (fun a b : Peer => a.context.peerName ≤ b.context.peerName)
    (afterCompute toDouble names master) assignment
    (fun _ _ _ _ => Iff.rfl)).symm

theorem delivered_afterCompute (toDouble : String → Double) (names : List String)
    (master : String) (assignment : List (String × List Record)) :
    (collect (arrivalOrder (assignment.map (afterCompute toDouble names master)))).map
        Prod.snd =
      (assignment.insertionSort fun a b => a.1 ≤ b.1).map
        fun a => a.2.foldl (fun s r => s + toDouble r.2) 0 := by
  rw [arrivalOrder_afterCompute, collect_afterCompute, List.map_map]
  rfl

theorem runTask_afterBarrier (toDouble : String → Double)
    (assignment : List (String × List Record))
    (master : String)
    (hmaster : (assignment.map Prod.fst)[(assignment.map Prod.fst).length / 2]? = some master)
    (hmem : master ∈ assignment.map Prod.fst)
    (hunique : (assignment.map Prod.fst).Nodup) :
    runToBarrier toDouble assignment =
        .ok (assignment.map (afterBarrier toDouble (assignment.map Prod.fst) master
          ((assignment.insertionSort fun a b => a.1 ≤ b.1).map
            fun a => a.2.foldl (fun s r => s + toDouble r.2) 0))) ∧
      ∃ peers, runTask toDouble assignment = .ok peers ∧
        outputSink peers =
          [("Sum", ((assignment.insertionSort fun a b => a.1 ≤ b.1).map
            fun a => a.2.foldl (fun s r => s + toDouble r.2) 0).foldl (· + ·) 0)] := by
  have hperm := collect_arrivalOrder_perm
    (assignment.map (afterCompute toDouble (assignment.map Prod.fst) master))
  have hmid : runToBarrier toDouble assignment = .ok (assignment.map
      (afterBarrier toDouble (assignment.map Prod.fst) master
        ((assignment.insertionSort fun a b => a.1 ≤ b.1).map
          fun a => a.2.foldl (fun s r => s + toDouble r.2) 0))) := by
    simp only [runToBarrier, runToSync_eq toDouble assignment master hmaster hmem,
      barrier_afterCompute, exchange_afterCompute _ _ _ _ _ hperm, delivered_afterCompute]
  obtain ⟨peers, hrun, hsink⟩ := cleanup_afterBarrier toDouble (assignment.map Prod.fst) master
    ((assignment.insertionSort fun a b => a.1 ≤ b.1).map
      fun a => a.2.foldl (fun s r => s + toDouble r.2) 0)
    assignment
  refine ⟨hmid, peers, ?_, ?_⟩
  · simp only [runTask, hmid, hrun]
  · rw [hsink, flatMap_only_master _ master assignment hunique hmem]

/-- C1: for every task of `N ≥ 1` uniquely addressed peers with arbitrary
finite input partitions, the life cycle `setup`, `bsp`, one barrier, `cleanup`
on all peers runs without a fatal error; the master is the peer of index
`N / 2`, after the barrier its mailbox holds the partial sums of all peers, in
address-ascending order of the senders, and at the end the output sink holds
exactly one record, with key "Sum".  Its value is the double the program
computes: each partial sum is the double sum, from 0.0 on and in read order, of
`toDouble(value)` over the partition, and the written value is the double sum,
from 0.0 on and in mailbox order, of the partial sums. -/
theorem sum_reduction_end_to_end (toDouble : String → Double)
    (assignment : List (String × List Record))
    (hN : 1 ≤ assignment.length) (hunique : (assignment.map Prod.fst).Nodup) :
    ∃ master mid peers,
      (assignment.map Prod.fst)[assignment.length / 2]? = some master ∧
      runToBarrier toDouble assignment = .ok mid ∧
      mid.map (fun p => p.context.peerName) = assignment.map Prod.fst ∧
      (∀ p ∈ mid, p.program.masterTask = master) ∧
      (∀ p ∈ mid, p.context.peerName = master →
        p.context.mailbox =
          (assignment.insertionSort fun a b => a.1 ≤ b.1).map
            fun a => a.2.foldl (fun s r => s + toDouble r.2) 0) ∧
      runTask toDouble assignment = .ok peers ∧
      outputSink peers =
        [("Sum", ((assignment.insertionSort fun a b => a.1 ≤ b.1).map
          fun a => a.2.foldl (fun s r => s + toDouble r.2) 0).foldl (· + ·) 0)] := by
  obtain ⟨master, hmaster, hmem⟩ :=
    SumBSP.master_exists (assignment.map Prod.fst) (by simpa using hN)
  obtain ⟨hmid, peers, hrun, hsink⟩ :=
    runTask_afterBarrier toDouble assignment master hmaster hmem hunique
  refine ⟨master, _, peers, by simpa using hmaster, hmid, names_afterBarrier _ _ _ _ _,
    fun p hp => (mem_afterBarrier _ _ _ _ _ p hp).1, ?_, hrun, hsink⟩
  intro p hp hname
  rw [(mem_afterBarrier _ _ _ _ _ p hp).2, if_pos hname]

theorem scenario_sorted :
    (Scenario.assignment.insertionSort fun a b => a.1 ≤ b.1) = Scenario.assignment := by
  apply List.Sorted.insertionSort_eq
  simp [Scenario.assignment, List.Sorted]
  decide

/-- The three-peer task: master peer1, mailbox 12, 3, 0, output ("Sum", 15). -/
theorem sum_reduction_scenario :
    1 ≤ Scenario.assignment.length ∧ (Scenario.assignment.map Prod.fst).Nodup ∧
      ∃ mid peers,
        runToBarrier Scenario.toDouble Scenario.assignment = .ok mid ∧
        mid.map (fun p => p.context.peerName) = ["peer0", "peer1", "peer2"] ∧
        (∀ p ∈ mid, p.program.masterTask = "peer1") ∧
        (∀ p ∈ mid, p.context.peerName = "peer1" →
          p.context.mailbox = [Double.ofInt 12, Double.ofInt 3, 0]) ∧
        runTask Scenario.toDouble Scenario.assignment = .ok peers ∧
        outputSink peers = [("Sum", Double.ofInt 15)] := by
  have hN : 1 ≤ Scenario.assignment.length := by decide
  have hunique : (Scenario.assignment.map Prod.fst).Nodup := by decide
  obtain ⟨master, mid, peers, hmaster, hmid, hnames, hprog, hmail, hrun, hsink⟩ :=
    sum_reduction_end_to_end Scenario.toDouble Scenario.assignment hN hunique
  have hm : master = "peer1" := by
    simpa [Scenario.assignment] using hmaster.symm
  have hsums : ((Scenario.assignment.insertionSort fun a b => a.1 ≤ b.1).map
      fun a => a.2.foldl (fun s r => s + Scenario.toDouble r.2) 0) =
      [Double.ofInt 12, Double.ofInt 3, 0] := by
    rw [scenario_sorted]
    decide!
  have htotal : [Double.ofInt 12, Double.ofInt 3, (0 : Double)].foldl (· + ·) 0 =
      Double.ofInt 15 := by decide!
  rw [hsums] at hmail hsink
  rw [htotal] at hsink
  rw [hm] at hprog hmail
  exact ⟨hN, hunique, mid, peers, hmid, hnames, hprog, hmail, hrun, hsink⟩

/-- A task of one peer with the values 1e16, 1.0 and -1e16: all three are finite
doubles with exact sum 1, and the task writes the single record ("Sum", 0.0),
whose exact value is 0. -/
theorem sum_reduction_not_exact :
    1 ≤ Rounding.assignment.length ∧ (Rounding.assignment.map Prod.fst).Nodup ∧
      (∀ r ∈ Rounding.assignment.flatMap Prod.snd,
        (Rounding.toDouble r.2).isFinite = true) ∧
      ((Rounding.assignment.flatMap Prod.snd).map
        fun r => (Rounding.toDouble r.2).toRat).sum = 1 ∧
      ∃ peers, runTask Rounding.toDouble Rounding.assignment = .ok peers ∧
        outputSink peers = [("Sum", 0)] ∧
        (0 : Double).toRat = 0 ∧
        (0 : Double).toRat ≠ ((Rounding.assignment.flatMap Prod.snd).map
          fun r => (Rounding.toDouble r.2).toRat).sum := by
  have hbig : Rounding.toDouble "1e16" = Double.finite false (10 ^ 16 <<< 1074) := by decide!
  have hone : Rounding.toDouble "1.0" = Double.finite false (1 <<< 1074) := by decide!
  have hneg : Rounding.toDouble "-1e16" = Double.finite true (10 ^ 16 <<< 1074) := by decide!
  have hexact : ((Rounding.assignment.flatMap Prod.snd).map
      fun r => (Rounding.toDouble r.2).toRat).sum = 1 := by
    simp only [Rounding.assignment, List.flatMap_cons, List.flatMap_nil, List.append_nil,
      List.map_cons, List.map_nil, List.sum_cons, List.sum_nil, hbig, hone, hneg, Double.toRat,
      Nat.shiftLeft_eq]
    norm_num
  have hzero : (0 : Double).toRat = 0 := by
    show (Double.finite false 0).toRat = 0
    simp [Double.toRat]
  have hwritten : ((Rounding.assignment.insertionSort fun a b => a.1 ≤ b.1).map
      fun a => a.2.foldl (fun s r => s + Rounding.toDouble r.2) 0).foldl (· + ·) 0 =
      (0 : Double) := by
    have hsorted : (Rounding.assignment.insertionSort fun a b => a.1 ≤ b.1) =
        Rounding.assignment := rfl
    rw [hsorted]
    decide!
  obtain ⟨_, peers, hrun, hsink⟩ :=
    runTask_afterBarrier Rounding.toDouble Rounding.assignment "peer0" rfl
      (by simp [Rounding.assignment]) (by decide)
  rw [hwritten] at hsink
  refine ⟨by decide, by decide, ?_, hexact, peers, hrun, hsink, hzero, ?_⟩
  · intro r hr
    simp only [Rounding.assignment, List.flatMap_cons, List.flatMap_nil, List.append_nil,
      List.mem_cons, List.mem_singleton, List.not_mem_nil, or_false] at hr
    rcases hr with rfl | rfl | rfl
    · rw [hbig]; rfl
    · rw [hone]; rfl
    · rw [hneg]; rfl
  · rw [hexact, hzero]
    norm_num

/-- C7: when each of the `N ≥ 1` peers has run `setup` and `bsp`, every peer has
exactly one message in its outgoing buffer, addressed to the master, with the
double partial sum of its partition as payload.  Whatever the order in which
the coordinator collects these messages, after the exchange the mailbox of the
master holds exactly `N` messages, which are the sent partial sums up to order,
so that under every reading of the doubles as numbers their sum is the sum of
all sent partial sums; the mailbox of every peer with another address is
empty.  The barrier itself performs such an exchange. -/
theorem barrier_delivers_all_partial_sums (toDouble : String → Double)
    (assignment : List (String × List Record)) (hN : 1 ≤ assignment.length) :
    ∃ master peers,
      (assignment.map Prod.fst)[assignment.length / 2]? = some master ∧
      runToSync toDouble assignment = .ok peers ∧
      peers.map (fun p => p.context.outgoing) =
        assignment.map (fun a => [(master, a.2.foldl (fun s r => s + toDouble r.2) 0)]) ∧
      (∀ collected : List (String × Double), collected.Perm (collect peers) →
        (exchange collected peers).map (fun p => p.context.peerName) =
          assignment.map Prod.fst ∧
        ∀ p ∈ exchange collected peers,
          (p.context.peerName = master →
            p.context.mailbox.length = assignment.length ∧
            p.context.mailbox.Perm ((collect peers).map Prod.snd) ∧
            ∀ value : Double → ℚ,
              (p.context.mailbox.map value).sum =
                (((collect peers).map Prod.snd).map value).sum) ∧
          (p.context.peerName ≠ master → p.context.mailbox = [])) ∧
      (collect (arrivalOrder peers)).Perm (collect peers) ∧
      barrier peers = .ok (exchange (collect (arrivalOrder peers)) peers) := by
  obtain ⟨master, hmaster, hmem⟩ :=
    SumBSP.master_exists (assignment.map Prod.fst) (by simpa using hN)
  refine ⟨master, _, by simpa using hmaster,
    runToSync_eq toDouble assignment master hmaster hmem, ?_, ?_,
    collect_arrivalOrder_perm _, barrier_afterCompute _ _ _ _⟩
  · rw [List.map_map]
    apply List.map_congr_left
    intro a _
    rfl
  · intro collected hperm
    rw [exchange_afterCompute _ _ _ _ _ hperm]
    refine ⟨names_afterBarrier _ _ _ _ _, ?_⟩
    intro p hp
    have hmail := (mem_afterBarrier _ _ _ _ _ p hp).2
    constructor
    · intro hname
      rw [hmail, if_pos hname]
      refine ⟨?_, hperm.map Prod.snd, fun value => ((hperm.map Prod.snd).map value).sum_eq⟩
      rw [List.length_map, hperm.length_eq, collect_afterCompute, List.length_map]
    · intro hname
      rw [hmail, if_neg hname]

/-- The three-peer task with the messages collected in the order peer2, peer0,
peer1: the master receives three messages whose exact values add up to 15. -/
theorem barrier_delivers_all_partial_sums_scenario :
    1 ≤ Scenario.assignment.length ∧
      ∃ peers,
        runToSync Scenario.toDouble Scenario.assignment = .ok peers ∧
        peers.map (fun p => p.context.outgoing) =
          [[("peer1", Double.ofInt 12)], [("peer1", Double.ofInt 3)], [("peer1", 0)]] ∧
        ∀ p ∈ exchange
            [("peer1", 0), ("peer1", Double.ofInt 12), ("peer1", Double.ofInt 3)] peers,
          (p.context.peerName = "peer1" →
            p.context.mailbox.length = 3 ∧
            p.context.mailbox.Perm [Double.ofInt 12, Double.ofInt 3, 0] ∧
            (p.context.mailbox.map Double.toRat).sum = 15) ∧
          (p.context.peerName ≠ "peer1" → p.context.mailbox = []) := by
  have hN : 1 ≤ Scenario.assignment.length := by decide
  obtain ⟨master, peers, hmaster, hrun, hout, hexchange, _, _⟩ :=
    barrier_delivers_all_partial_sums Scenario.toDouble Scenario.assignment hN
  have hm : master = "peer1" := by
    simpa [Scenario.assignment] using hmaster.symm
  rw [hm] at hout hexchange
  have hsums : (Scenario.assignment.map fun a =>
      [("peer1", a.2.foldl (fun s r => s + Scenario.toDouble r.2) 0)]) =
      [[("peer1", Double.ofInt 12)], [("peer1", Double.ofInt 3)], [("peer1", 0)]] := by
    decide!
  rw [hsums] at hout
  have hcollect : collect peers =
      [("peer1", Double.ofInt 12), ("peer1", Double.ofInt 3), ("peer1", 0)] := by
    have h : collect peers = (peers.map fun p => p.context.outgoing).flatten := by
      simp [collect, List.flatMap]
    rw [h, hout]
    rfl
  have hperm : [("peer1", (0 : Double)), ("peer1", Double.ofInt 12),
      ("peer1", Double.ofInt 3)].Perm (collect peers) := by
    rw [hcollect]
    show ([("peer1", (0 : Double))] ++ [("peer1", Double.ofInt 12), ("peer1", Double.ofInt 3)]).Perm
      ([("peer1", Double.ofInt 12), ("peer1", Double.ofInt 3)] ++ [("peer1", 0)])
    exact List.perm_append_comm
  have h12 : Double.ofInt 12 = Double.finite false (12 <<< 1074) := by decide!
  have h3 : Double.ofInt 3 = Double.finite false (3 <<< 1074) := by decide!
  have hvalues : ([Double.ofInt 12, Double.ofInt 3, (0 : Double)].map Double.toRat).sum = 15 := by
    rw [h12, h3]
    show ([Double.finite false (12 <<< 1074), Double.finite false (3 <<< 1074),
      Double.finite false 0].map Double.toRat).sum = 15
    simp only [List.map_cons, List.map_nil, List.sum_cons, List.sum_nil, Double.toRat,
      Nat.shiftLeft_eq]
    norm_num
  refine ⟨hN, peers, hrun, hout, ?_⟩
  intro p hp
  obtain ⟨hmaster', hother⟩ := (hexchange _ hperm).2 p hp
  refine ⟨fun hname => ?_, hother⟩
  obtain ⟨hlen, hmailperm, hvalue⟩ := hmaster' hname
  have hvalue' := hvalue Double.toRat
  rw [hcollect] at hmailperm hvalue'
  simp only [List.map_cons, List.map_nil] at hmailperm hvalue' hvalues
  have hthree : Scenario.assignment.length = 3 := rfl
  rw [hthree] at hlen
  exact ⟨hlen, hmailperm, hvalue'.trans hvalues⟩

end TaskRunner

end HamaPipes
